import Mathlib

/-!
Verification of the gh-tp plan/markdown pipeline (Go sources under cmd/).

The development shallowly embeds the core of the program:

* the filename validator `validateFilePath` (cmd/tools.go), together with
  executable models `goClean` and `goBase` of Go's `path/filepath.Clean`
  and `path/filepath.Base` on slash-separated paths;
* the binary auto-detection `autoDetectBinary` and the error builder
  `buildMultipleBinariesFoundError` (cmd/tools.go, cmd/errors.go);
* the plan executor `createPlan` (cmd/tf.go), with the external invocation
  outcome and the observed interrupt flag passed in as parameters;
* the markdown renderer `createMarkdown`; the three-argument renderer that
  the current root command and the tests invoke is not among the provided
  sources (only older two-argument iterations are), so it is modelled from
  the specification;
* the template composition `createWithTemplate` (cmd/pr_template.go);
* the root command pipeline `runE` (cmd/root.go), which strings the
  components together and records every file write as an event.

File contents are strings, the filesystem is a partial map from paths to
contents, and paths are manipulated as lists of characters.
-/

namespace GhTp

/-- The character class of the allow-list regex
`^[a-zA-Z0-9_\-\.]+$` (cmd/tools.go, `validFilenameChars`). -/
def isAllowedChar (c : Char) : Bool :=
  (decide (('a' ≤ c ∧ c ≤ 'z') ∨ ('A' ≤ c ∧ c ≤ 'Z') ∨ ('0' ≤ c ∧ c ≤ '9')))
    || c == '_' || c == '-' || c == '.'

/-- Model of the compiled regex `validFilenameChars` from cmd/tools.go:
the whole string must consist of one or more allowed characters. -/
def validFilenameChars (s : String) : Bool :=
  !s.data.isEmpty && s.data.all isAllowedChar

/-- Max filename length (cmd/tools.go `maxFilenameLength`). -/
def maxFilenameLength : Nat := 255

/-- Split a character list on the path separator, keeping empty segments,
modelling how Go path cleaning walks separator-delimited elements. -/
def splitSlash : List Char → List (List Char)
  | [] => [[]]
  | c :: rest =>
    match splitSlash rest with
    | [] => [[]]
    | a :: as => if c = '/' then [] :: a :: as else (c :: a) :: as

/-- One step of lexical path cleaning: push a path element onto the stack of
kept elements, skipping empty and `.` elements and resolving `..` exactly as
Go's `path/filepath.Clean` does. -/
def cleanStep (rooted : Bool) (st : List (List Char)) (e : List Char) :
    List (List Char) :=
  if e = [] ∨ e = ['.'] then st
  else if e = ['.', '.'] then
    if st ≠ [] ∧ st.getLast? ≠ some ['.', '.'] then st.dropLast
    else if rooted then st
    else st ++ [['.', '.']]
  else st ++ [e]

/-- Join path elements with single separators. -/
def joinSlash : List (List Char) → List Char
  | [] => []
  | [e] => e
  | e :: rest => e ++ '/' :: joinSlash rest

/-- Executable model of Go's `path/filepath.Clean` for slash-separated
paths: shortest lexically equivalent path (empty input cleans to `.`,
redundant separators and `.` elements removed, `..` resolved against
earlier elements, a rooted path never escapes the root). -/
def goClean (s : String) : String :=
  match s.data with
  | [] => "."
  | c :: rest =>
    let rooted := c == '/'
    let st := (splitSlash (c :: rest)).foldl (cleanStep rooted) []
    let body := joinSlash st
    if rooted then ⟨'/' :: body⟩
    else if body = [] then "." else ⟨body⟩

/-- Executable model of Go's `path/filepath.Base`: last element of the path
after trailing separators are removed; `.` for the empty path, `/` for a
path consisting solely of separators. -/
def goBase (s : String) : String :=
  if s.data = [] then "."
  else
    let t := (s.data.reverse.dropWhile (fun c => c == '/')).reverse
    if t = [] then "/"
    else ⟨(t.reverse.takeWhile (fun c => !(c == '/'))).reverse⟩

/-- The distinct validation failures of `validateFilePath` (cmd/tools.go),
in source order. -/
inductive VError where
  | emptyFilename
  | notFilenameOnly
  | invalidCharacters
  | tooLong
  | nullByte
deriving DecidableEq, Repr

/-- Embedding of `validateFilePath` (cmd/tools.go). Returns the cleaned
filename and no error on success; on failure, the original input together
with the error of the first failing check. -/
def validateFilePath (path : String) : String × Option VError :=
  if path = "" then (path, some .emptyFilename)
  else if goBase (goClean path) ≠ goClean path ∨ goClean path = "." ∨
      goClean path = ".." then
    (path, some .notFilenameOnly)
  else if !validFilenameChars (goClean path) then
    (path, some .invalidCharacters)
  else if maxFilenameLength < (goClean path).data.length then
    (path, some .tooLong)
  else if (goClean path).data.contains (Char.ofNat 0) then
    (path, some .nullByte)
  else
    (goClean path, none)

example : validateFilePath "test.txt" = ("test.txt", none) := by decide
example : validateFilePath "./test.txt" = ("test.txt", none) := by decide
example : validateFilePath "../test.txt" = ("../test.txt", some .notFilenameOnly) := by decide
example : validateFilePath "/etc/passwd" = ("/etc/passwd", some .notFilenameOnly) := by decide
example : validateFilePath "subdir/test.txt" = ("subdir/test.txt", some .notFilenameOnly) := by decide
example : validateFilePath "..hidden/test.txt" = ("..hidden/test.txt", some .notFilenameOnly) := by decide
example : validateFilePath "./././test.txt" = ("test.txt", none) := by decide
example : validateFilePath "" = ("", some .emptyFilename) := by decide
example : validateFilePath "." = (".", some .notFilenameOnly) := by decide
example : validateFilePath "bad<char>.md" = ("bad<char>.md", some .invalidCharacters) := by decide
example : validateFilePath "a..b" = ("a..b", none) := by decide
example : validateFilePath "a/" = ("a", none) := by decide

/-! ### Basic facts about the validator -/

theorem string_eq_of_data {a b : String} (h : a.data = b.data) : a = b := by
  cases a; cases b; exact congrArg String.mk h

theorem splitSlash_no_slash {l : List Char} (h : '/' ∉ l) : splitSlash l = [l] := by
  induction l with
  | nil => rfl
  | cons c rest ih =>
    have hc : c ≠ '/' := fun hc => h (hc ▸ List.mem_cons_self c rest)
    have hrest : '/' ∉ rest := fun hm => h (List.mem_cons_of_mem c hm)
    simp [splitSlash, ih hrest, hc]

theorem goClean_single {v : String} (hne : v.data ≠ []) (hslash : '/' ∉ v.data)
    (hdot : v ≠ ".") (hdd : v ≠ "..") : goClean v = v := by
  rcases hd : v.data with _ | ⟨c, rest⟩
  · exact absurd hd hne
  · have hc : c ≠ '/' := fun hc => hslash (hd ▸ hc ▸ List.mem_cons_self c rest)
    have hdot' : c :: rest ≠ ['.'] := by
      intro h
      exact hdot (string_eq_of_data (hd.trans h))
    have hdd' : c :: rest ≠ ['.', '.'] := by
      intro h
      exact hdd (string_eq_of_data (hd.trans h))
    have hsplit : splitSlash (c :: rest) = [c :: rest] :=
      splitSlash_no_slash (hd ▸ hslash)
    have hstep : cleanStep (c == '/') [] (c :: rest) = [c :: rest] := by
      simp [cleanStep, hdot', hdd']
    simp only [goClean]
    rw [hd]
    simp only [hsplit, List.foldl_cons, List.foldl_nil, hstep]
    have hcb : (c == '/') = false := by simpa using hc
    simp only [hcb, joinSlash]
    simp only [Bool.false_eq_true, if_false]
    rw [if_neg (by simp)]
    exact string_eq_of_data hd.symm

theorem validFilenameChars_facts {v : String} (h : validFilenameChars v = true) :
    v.data ≠ [] ∧ '/' ∉ v.data ∧ Char.ofNat 0 ∉ v.data := by
  unfold validFilenameChars at h
  rw [Bool.and_eq_true] at h
  obtain ⟨hne, hall⟩ := h
  rw [List.all_eq_true] at hall
  refine ⟨by simpa using hne, ?_, ?_⟩
  · intro hm
    have := hall _ hm
    simp [isAllowedChar] at this
  · intro hm
    have := hall _ hm
    simp [isAllowedChar] at this

/-- Unfolds a successful validation into the facts the later checks
established about the returned value. -/
theorem validateFilePath_ok_facts {x v : String}
    (h : validateFilePath x = (v, none)) :
    v = goClean x ∧ goBase v = v ∧ v ≠ "." ∧ v ≠ ".." ∧
      validFilenameChars v = true ∧ v.data.length ≤ maxFilenameLength := by
  unfold validateFilePath at h
  split_ifs at h with h1 h2 h3 h4 h5
  · simp at h
  · simp at h
  · simp at h
  · simp at h
  · simp at h
  · have hv : goClean x = v := congrArg Prod.fst h
    subst hv
    push_neg at h2
    refine ⟨rfl, h2.1, h2.2.1, h2.2.2, ?_, ?_⟩
    · simpa using h3
    · simpa using Nat.not_lt.mp h4

/-- Validation is idempotent on its successful output. -/
theorem validateFilePath_idem {x v : String}
    (h : validateFilePath x = (v, none)) : validateFilePath v = (v, none) := by
  obtain ⟨-, hbase, hdot, hdd, hchars, hlen⟩ := validateFilePath_ok_facts h
  obtain ⟨hne, hslash, hnull⟩ := validFilenameChars_facts hchars
  have hclean : goClean v = v := goClean_single hne hslash hdot hdd
  have hvne : v ≠ "" := by
    intro h0
    exact hne (by simp [h0])
  unfold validateFilePath
  rw [if_neg hvne]
  simp only [hclean]
  rw [if_neg (by push_neg; exact ⟨hbase, hdot, hdd⟩)]
  rw [if_neg (by simp [hchars])]
  rw [if_neg (by simpa using Nat.not_lt.mpr hlen)]
  rw [if_neg (by simpa using hnull)]

/-! ### Claims about the filename validator -/

/-- C3, counterexample: the input `./test.txt` contains a separator, yet
`validateFilePath` accepts it and returns the cleaned value `test.txt`
rather than failing with the filename-only error and echoing the original
input. The repository's own `Test_ValidateFilePath` expects exactly this
acceptance. -/
theorem validateFilePath_slash_counterexample :
    '/' ∈ "./test.txt".data ∧
      validateFilePath "./test.txt" = ("test.txt", none) ∧
      validateFilePath "./test.txt" ≠ ("./test.txt", some VError.notFilenameOnly) := by
  decide

/-- C3, amended: whenever lexical cleaning leaves a directory separator
(the base name differs from the cleaned path) or the input cleans to `.`
or `..`, `validateFilePath` fails with the filename-only error and returns
the original input unchanged. -/
theorem validateFilePath_notFilenameOnly (x : String) (hne : x ≠ "")
    (h : goBase (goClean x) ≠ goClean x ∨ goClean x = "." ∨ goClean x = "..") :
    validateFilePath x = (x, some VError.notFilenameOnly) := by
  unfold validateFilePath
  rw [if_neg hne, if_pos h]

/-- Witness for the amended C3 at the spec's own scenario `../x.txt`. -/
theorem validateFilePath_notFilenameOnly_witness :
    ("../x.txt" ≠ "" ∧
        (goBase (goClean "../x.txt") ≠ goClean "../x.txt" ∨
          goClean "../x.txt" = "." ∨ goClean "../x.txt" = "..")) ∧
      validateFilePath "../x.txt" = ("../x.txt", some VError.notFilenameOnly) :=
  ⟨⟨by decide, by decide⟩,
    validateFilePath_notFilenameOnly "../x.txt" (by decide) (by decide)⟩

/-- C9: filename validation is idempotent; a value returned by a successful
validation revalidates to itself with no error. -/
theorem validateFilePath_idempotent (x v : String)
    (h : validateFilePath x = (v, none)) : validateFilePath v = (v, none) :=
  validateFilePath_idem h

/-- Witness for C9 at the concrete input `./plan.md`. -/
theorem validateFilePath_idempotent_witness :
    validateFilePath "./plan.md" = ("plan.md", none) ∧
      validateFilePath "plan.md" = ("plan.md", none) :=
  ⟨by decide, validateFilePath_idempotent "./plan.md" "plan.md" (by decide)⟩

/-- C10: the null-byte branch of `validateFilePath` is unreachable — no
input ever produces the null-byte error, because the checked (cleaned)
value has already matched the allow-list regex, which excludes the null
character. -/
theorem validateFilePath_nullByte_unreachable (path : String) :
    (validateFilePath path).2 ≠ some VError.nullByte := by
  unfold validateFilePath
  split_ifs with h1 h2 h3 h4 h5
  · simp
  · simp
  · simp
  · simp
  · have hch : validFilenameChars (goClean path) = true := by simpa using h3
    have hnull := (validFilenameChars_facts hch).2.2
    exact absurd (by simpa using h5) hnull
  · simp

/-! ### Binary resolution (cmd/tools.go, cmd/errors.go) -/

theorem string_append_assoc (a b c : String) : a ++ b ++ c = a ++ (b ++ c) := by
  apply String.ext
  simp only [String.data_append, List.append_assoc]

/-- Name of the config file (cmd/root.go `ConfigName`). -/
def ConfigName : String := ".tp.toml"

/-- Model of Go's `strings.Join`. -/
def goJoin : List String → String → String
  | [], _ => ""
  | [x], _ => x
  | x :: xs, sep => x ++ sep ++ goJoin xs sep

/-- Embedding of `buildMultipleBinariesFoundError` (cmd/errors.go): the
message produced when more than one IaC binary is discovered on the PATH.
`configPathExists` stands for `doesExist(configPath)`. -/
def buildMultipleBinariesFoundError (foundBinaries : List String)
    (configPath : String) (configPathExists : Bool) : String :=
  let errMsg := "found both " ++ goJoin foundBinaries " and " ++ " in your PATH"
  if configPath ≠ "" ∧ configPathExists = true then
    errMsg ++ ". Specify the desired one using the -b flag or set the \x27binary\x27 parameter in " ++
      configPath
  else
    errMsg ++ ". Specify the desired one using the -b flag or create " ++
      ConfigName ++ " and set the \x27binary\x27 parameter"

/-- The candidate binaries probed by auto-detection (cmd/tools.go). -/
def binariesToFind : List String := ["tofu", "terraform"]

/-- Embedding of `autoDetectBinary` (cmd/tools.go). `lookPath b = some p`
models a successful `safeexec.LookPath(b)` returning `p`. The first
component records every candidate the loop probed, mirroring that the Go
loop never short-circuits; the second component is the result: an error
when several binaries are found, `none` when none is (the caller then
builds the not-found error), the unique found binary otherwise. -/
def autoDetectBinary (lookPath : String → Option String)
    (configPath : String) (configPathExists : Bool) :
    List String × Except String (Option String) :=
  let probed := binariesToFind.foldl
    (fun (acc : List String × List String) binName =>
      (acc.1 ++ [binName],
        match lookPath binName with
        | some binPath => if binPath = "" then acc.2 else acc.2 ++ [binName]
        | none => acc.2))
    ([], [])
  let foundBinaries := probed.2
  if foundBinaries = [] then (probed.1, .ok none)
  else if 1 < foundBinaries.length then
    (probed.1,
      .error (buildMultipleBinariesFoundError foundBinaries configPath configPathExists))
  else (probed.1, .ok foundBinaries.head?)

/-- C8: when both recognized binaries are discoverable on the PATH,
auto-detection probes both candidates (no short-circuit), fails with the
multiple-binaries error naming both discovered kinds, and never returns a
binary. -/
theorem autoDetectBinary_ambiguous (lookPath : String → Option String)
    (configPath : String) (configPathExists : Bool) (p₁ p₂ : String)
    (h1 : lookPath "tofu" = some p₁) (h1ne : p₁ ≠ "")
    (h2 : lookPath "terraform" = some p₂) (h2ne : p₂ ≠ "") :
    (autoDetectBinary lookPath configPath configPathExists).1 =
        ["tofu", "terraform"] ∧
      (autoDetectBinary lookPath configPath configPathExists).2 =
        .error (buildMultipleBinariesFoundError ["tofu", "terraform"]
          configPath configPathExists) ∧
      (∀ r, (autoDetectBinary lookPath configPath configPathExists).2 ≠ .ok r) ∧
      (∃ l r, (buildMultipleBinariesFoundError ["tofu", "terraform"]
          configPath configPathExists).data = l ++ "tofu".data ++ r) ∧
      (∃ l r, (buildMultipleBinariesFoundError ["tofu", "terraform"]
          configPath configPathExists).data = l ++ "terraform".data ++ r) := by
  have hfold : autoDetectBinary lookPath configPath configPathExists =
      (["tofu", "terraform"],
        .error (buildMultipleBinariesFoundError ["tofu", "terraform"]
          configPath configPathExists)) := by
    simp [autoDetectBinary, binariesToFind, h1, h2, h1ne, h2ne]
  refine ⟨by rw [hfold], by rw [hfold], by rw [hfold]; intro r; simp, ?_, ?_⟩
  · unfold buildMultipleBinariesFoundError
    split_ifs
    · exact ⟨"found both ".data,
        (" and terraform in your PATH. Specify the desired one using the -b flag or set the \x27binary\x27 parameter in ").data ++
          configPath.data,
        by simp [goJoin, String.data_append, List.append_assoc]⟩
    · exact ⟨"found both ".data,
        (" and terraform in your PATH. Specify the desired one using the -b flag or create .tp.toml and set the \x27binary\x27 parameter").data,
        by simp [goJoin, ConfigName, String.data_append, List.append_assoc]⟩
  · unfold buildMultipleBinariesFoundError
    split_ifs
    · exact ⟨"found both tofu and ".data,
        (" in your PATH. Specify the desired one using the -b flag or set the \x27binary\x27 parameter in ").data ++
          configPath.data,
        by simp [goJoin, String.data_append, List.append_assoc]⟩
    · exact ⟨"found both tofu and ".data,
        (" in your PATH. Specify the desired one using the -b flag or create .tp.toml and set the \x27binary\x27 parameter").data,
        by simp [goJoin, ConfigName, String.data_append, List.append_assoc]⟩

/-- Witness for C8 with both binaries present on a concrete PATH. -/
theorem autoDetectBinary_ambiguous_witness :
    ((fun b => if b = "tofu" then some "/usr/bin/tofu"
        else if b = "terraform" then some "/usr/bin/terraform"
        else none) "tofu" = some "/usr/bin/tofu" ∧
      (fun b => if b = "tofu" then some "/usr/bin/tofu"
        else if b = "terraform" then some "/usr/bin/terraform"
        else none) "terraform" = some "/usr/bin/terraform") ∧
    (autoDetectBinary (fun b => if b = "tofu" then some "/usr/bin/tofu"
        else if b = "terraform" then some "/usr/bin/terraform"
        else none) ".tp.toml" true).1 = ["tofu", "terraform"] ∧
    (autoDetectBinary (fun b => if b = "tofu" then some "/usr/bin/tofu"
        else if b = "terraform" then some "/usr/bin/terraform"
        else none) ".tp.toml" true).2 =
      .error (buildMultipleBinariesFoundError ["tofu", "terraform"]
        ".tp.toml" true) := by
  have h := autoDetectBinary_ambiguous
    (fun b => if b = "tofu" then some "/usr/bin/tofu"
      else if b = "terraform" then some "/usr/bin/terraform"
      else none) ".tp.toml" true "/usr/bin/tofu" "/usr/bin/terraform"
    (by decide) (by decide) (by decide) (by decide)
  exact ⟨⟨by decide, by decide⟩, h.1, h.2.1⟩

/-! ### Plan executor (cmd/tf.go) -/

/-- Filesystem effects recorded by the embedding: a file created or written
at a path, or a best-effort removal of a path. -/
inductive Event where
  | write (path : String)
  | remove (path : String)
deriving DecidableEq, Repr

/-- Errors `createPlan` can return (cmd/tf.go), in source order. The
`interrupted` constructor models the sentinel `ErrInterrupted` from
cmd/errors.go. -/
inductive CreatePlanError where
  | binaryNotConfigured
  | invalidPlanFile (orig : String) (e : VError)
  | tfexecInitFailed
  | interrupted
  | planFailed (e : String)
  | showFailed (e : String)
deriving DecidableEq, Repr

/-- Environment of one `createPlan` run: the configuration reads, whether
`tfexec.NewTerraform` fails, the interrupt flag as observed after the
blocking `tf.Plan` call returns, the error (if any) reported by `tf.Plan`
itself, and the outcome of `tf.ShowPlanFileRaw`. The background signal
listener and the atomic flag are abstracted into the single observed
Boolean, which is exactly what the code consults after the call returns. -/
structure PlanEnv where
  viperBinary : String
  globalBinary : String
  planFileRaw : String
  tfexecInitFails : Bool
  interrupted : Bool
  planErr : Option String
  showResult : Except String String

/-- Embedding of `createPlan` (cmd/tf.go): resolve the binary path, validate
the plan file name, invoke the plan (recording the artifact write), then
check the interrupt flag FIRST, then the invocation error (removing the
artifact), and finally show the plan text. -/
def createPlan (env : PlanEnv) : Except CreatePlanError String × List Event :=
  if (if env.viperBinary = "" then env.globalBinary else env.viperBinary) = "" then
    (.error .binaryNotConfigured, [])
  else
    match validateFilePath env.planFileRaw with
    | (orig, some e) => (.error (.invalidPlanFile orig e), [])
    | (planPath, none) =>
      if env.tfexecInitFails then (.error .tfexecInitFailed, [])
      else if env.interrupted then (.error .interrupted, [.write planPath])
      else
        match env.planErr with
        | some e => (.error (.planFailed e), [.write planPath, .remove planPath])
        | none =>
          match env.showResult with
          | .error e => (.error (.showFailed e), [.write planPath])
          | .ok s => (.ok s, [.write planPath])

/-- C1: if the interrupt flag is set when the blocking plan invocation
returns (in a run that reached the invocation), `createPlan` returns the
distinguished `interrupted` sentinel — regardless of any error the
invocation itself reported — and in particular never the generic
plan-failure error. -/
theorem createPlan_interrupted_precedence (env : PlanEnv) (p : String)
    (hbin : ¬(if env.viperBinary = "" then env.globalBinary else env.viperBinary) = "")
    (hval : validateFilePath env.planFileRaw = (p, none))
    (hinit : env.tfexecInitFails = false)
    (hint : env.interrupted = true) :
    (createPlan env).1 = .error .interrupted ∧
      ∀ e, (createPlan env).1 ≠ .error (.planFailed e) := by
  have hres : (createPlan env).1 = .error .interrupted := by
    unfold createPlan
    rw [if_neg hbin]
    split
    · next orig e heq =>
      rw [hval] at heq
      exact absurd (congrArg Prod.snd heq) (by simp)
    · next planPath heq =>
      rw [hinit, hint]
      simp
  exact ⟨hres, fun e => by rw [hres]; simp⟩

/-- A concrete interrupted run in which `tf.Plan` also reported an error. -/
def interruptedEnv : PlanEnv where
  viperBinary := "tofu"
  globalBinary := ""
  planFileRaw := "plan.out"
  tfexecInitFails := false
  interrupted := true
  planErr := some "exit status 1"
  showResult := .error "unused"

/-- Witness for C1: a concrete interrupted run in which `tf.Plan` also
reported its own error still yields the interruption sentinel. -/
theorem createPlan_interrupted_precedence_witness :
    (createPlan interruptedEnv).1 = .error .interrupted ∧
      ∀ e, (createPlan interruptedEnv).1 ≠ .error (.planFailed e) :=
  createPlan_interrupted_precedence interruptedEnv "plan.out" (by decide)
    (by decide) (by decide) (by decide)

/-! ### Markdown renderer

The three-argument `createMarkdown(mdParam, planStr, binaryName)` that the
current root command and `Test_createMarkdown` invoke is not among the
provided sources (the sources contain only older two-argument iterations),
so the renderer is modelled from the specification of the Markdown
Renderer: validate the filename (returning the original input on
validation failure, as the tests demand), short-circuit on empty plan text
with no file I/O, and otherwise write a details/summary document whose
title comes from the binary-name lookup table, whose fenced code block
wraps the plan text verbatim, and which carries exactly one trailing
newline at end of file. -/

/-- A filesystem is a partial map from paths to file contents. -/
abbrev FS := String → Option String

/-- Writing (create-or-truncate) a file. -/
def fsWrite (fs : FS) (p content : String) : FS :=
  fun q => if q = p then some content else fs q

/-- Renderer failures surfaced to the caller. In the pure filesystem model
writes always succeed, so the validation failure is the one that remains. -/
inductive MdError where
  | invalidFilename (e : VError)
deriving DecidableEq, Repr

/-- Modelled from the spec: the binary-name-to-title lookup table with its
default for unrecognized names. -/
def detailsTitle (binaryName : String) : String :=
  if binaryName = "tofu" then "OpenTofu plan"
  else if binaryName = "terraform" then "Terraform plan"
  else "Plan Details"

/-- Modelled from the spec: the rendered Markdown document — a
details/summary wrapper around a fenced `terraform` code block holding the
plan text verbatim, with exactly one trailing newline appended. -/
def mdDocument (title planStr : String) : String :=
  "<details><summary>" ++ title ++ "</summary>\n\n" ++
    "```terraform\n" ++ planStr ++ "\n```" ++ "\n\n</details>\n"

/-- Modelled from the spec: the three-argument `createMarkdown` renderer
(absent from the provided sources; only its tests and its caller are
present). Returns the original input and an error when validation fails,
performs no I/O when the plan text is empty, and otherwise writes the
rendered document at the validated path. -/
def createMarkdown (fs : FS) (mdParam planStr binaryName : String) :
    (String × Option MdError) × FS × List Event :=
  match validateFilePath mdParam with
  | (orig, some e) => ((orig, some (.invalidFilename e)), fs, [])
  | (validated, none) =>
    if planStr = "" then ((validated, none), fs, [])
    else
      ((validated, none),
        fsWrite fs validated (mdDocument (detailsTitle binaryName) planStr),
        [.write validated])

/-- C4: with empty plan text the renderer performs no filesystem write,
returns the validated path with no error, and a fresh path still has no
file afterwards. -/
theorem createMarkdown_empty_plan (fs : FS) (mdParam binaryName : String)
    (hval : validateFilePath mdParam = (mdParam, none))
    (hfresh : fs mdParam = none) :
    createMarkdown fs mdParam "" binaryName = ((mdParam, none), fs, []) ∧
      ((createMarkdown fs mdParam "" binaryName).2.1) mdParam = none := by
  have h1 : createMarkdown fs mdParam "" binaryName = ((mdParam, none), fs, []) := by
    simp [createMarkdown, hval]
  exact ⟨h1, by rw [h1]; exact hfresh⟩

/-- Witness for C4 at the spec's concrete scenario 1. -/
theorem createMarkdown_empty_plan_witness :
    (validateFilePath "plan.md" = ("plan.md", none) ∧
        ((fun _ => none : FS) "plan.md" = none)) ∧
      createMarkdown (fun _ => none) "plan.md" "" "terraform" =
        (("plan.md", none), (fun _ => none : FS), []) ∧
      ((createMarkdown (fun _ => none) "plan.md" "" "terraform").2.1) "plan.md" =
        none :=
  ⟨⟨by decide, rfl⟩,
    (createMarkdown_empty_plan (fun _ => none) "plan.md" "terraform"
      (by decide) rfl).1,
    (createMarkdown_empty_plan (fun _ => none) "plan.md" "terraform"
      (by decide) rfl).2⟩

/-- C5: for non-empty plan text the rendered file's title is determined by
the lookup table on the binary kind name, and rendering with `tofu` yields
a file containing `OpenTofu plan`. -/
theorem createMarkdown_title_lookup (fs : FS)
    (mdParam planStr binaryName : String)
    (hval : validateFilePath mdParam = (mdParam, none))
    (hne : planStr ≠ "") :
    ((createMarkdown fs mdParam planStr binaryName).2.1) mdParam =
        some (mdDocument
          (if binaryName = "tofu" then "OpenTofu plan"
            else if binaryName = "terraform" then "Terraform plan"
            else "Plan Details") planStr) ∧
      (binaryName = "tofu" →
        ∃ c l r, ((createMarkdown fs mdParam planStr binaryName).2.1) mdParam =
            some c ∧ c.data = l ++ "OpenTofu plan".data ++ r) := by
  have h1 : ((createMarkdown fs mdParam planStr binaryName).2.1) mdParam =
      some (mdDocument (detailsTitle binaryName) planStr) := by
    simp [createMarkdown, hval, hne, fsWrite]
  refine ⟨by rw [h1]; rfl, ?_⟩
  intro htofu
  subst htofu
  refine ⟨mdDocument (detailsTitle "tofu") planStr, "<details><summary>".data,
    ("</summary>\n\n" ++ "```terraform\n" ++ planStr ++ "\n```" ++
      "\n\n</details>\n").data, h1, ?_⟩
  simp [mdDocument, detailsTitle, String.data_append, List.append_assoc]

/-- Witness for C5 at the spec's concrete scenario 2. -/
theorem createMarkdown_title_lookup_witness :
    (validateFilePath "changes.md" = ("changes.md", none) ∧
        ("+ resource \x22test\x22" : String) ≠ "") ∧
      ((createMarkdown (fun _ => none) "changes.md" "+ resource \x22test\x22"
          "tofu").2.1) "changes.md" =
        some (mdDocument "OpenTofu plan" "+ resource \x22test\x22") ∧
      (∃ c l r, ((createMarkdown (fun _ => none) "changes.md"
          "+ resource \x22test\x22" "tofu").2.1) "changes.md" = some c ∧
        c.data = l ++ "OpenTofu plan".data ++ r) :=
  ⟨⟨by decide, by decide⟩,
    by
      have h := (createMarkdown_title_lookup (fun _ => none) "changes.md"
        "+ resource \x22test\x22" "tofu" (by decide) (by decide)).1
      simpa using h,
    (createMarkdown_title_lookup (fun _ => none) "changes.md"
      "+ resource \x22test\x22" "tofu" (by decide) (by decide)).2 rfl⟩

theorem suffix_eq_of_length {l s₁ s₂ : List Char} (h₁ : s₁ <:+ l)
    (h₂ : s₂ <:+ l) (h : s₁.length = s₂.length) : s₁ = s₂ := by
  obtain ⟨a, ha⟩ := h₁
  obtain ⟨b, hb⟩ := h₂
  have hab : a ++ s₁ = b ++ s₂ := ha.trans hb.symm
  have hlen : a.length = b.length := by
    have := congrArg List.length hab
    simp only [List.length_append] at this
    omega
  exact (List.append_inj hab hlen).2

/-- C6: a successful render of non-empty plan text produces a file whose
content contains the plan text verbatim inside a fenced code block and
ends with exactly one trailing newline. -/
theorem createMarkdown_roundtrip (fs : FS) (mdParam planStr binaryName : String)
    (hval : validateFilePath mdParam = (mdParam, none))
    (hne : planStr ≠ "") :
    ∃ c, ((createMarkdown fs mdParam planStr binaryName).2.1) mdParam = some c ∧
      (∃ l r, c.data = l ++ ("```terraform\n" ++ planStr ++ "\n```").data ++ r) ∧
      ['\n'] <:+ c.data ∧ ¬ ['\n', '\n'] <:+ c.data := by
  have h1 : ((createMarkdown fs mdParam planStr binaryName).2.1) mdParam =
      some (mdDocument (detailsTitle binaryName) planStr) := by
    simp [createMarkdown, hval, hne, fsWrite]
  refine ⟨mdDocument (detailsTitle binaryName) planStr, h1, ?_, ?_, ?_⟩
  · refine ⟨("<details><summary>" ++ detailsTitle binaryName ++ "</summary>\n\n").data,
      "\n\n</details>\n".data, ?_⟩
    simp [mdDocument, String.data_append, List.append_assoc]
  · have hsuf : ("\n```" ++ "\n\n</details>\n").data <:+
        (mdDocument (detailsTitle binaryName) planStr).data := by
      have hform : (mdDocument (detailsTitle binaryName) planStr).data =
          (("<details><summary>" ++ detailsTitle binaryName ++ "</summary>\n\n" ++
              "```terraform\n" ++ planStr).data) ++
            ("\n```" ++ "\n\n</details>\n").data := by
        simp [mdDocument, String.data_append, List.append_assoc]
      rw [hform]
      exact List.suffix_append _ _
    exact List.IsSuffix.trans (by decide) hsuf
  · intro hcon
    have hsuf : ("\n```" ++ "\n\n</details>\n").data <:+
        (mdDocument (detailsTitle binaryName) planStr).data := by
      have hform : (mdDocument (detailsTitle binaryName) planStr).data =
          (("<details><summary>" ++ detailsTitle binaryName ++ "</summary>\n\n" ++
              "```terraform\n" ++ planStr).data) ++
            ("\n```" ++ "\n\n</details>\n").data := by
        simp [mdDocument, String.data_append, List.append_assoc]
      rw [hform]
      exact List.suffix_append _ _
    have hlast : ['>', '\n'] <:+ (mdDocument (detailsTitle binaryName) planStr).data :=
      List.IsSuffix.trans (by decide) hsuf
    have : (['\n', '\n'] : List Char) = ['>', '\n'] :=
      suffix_eq_of_length hcon hlast (by decide)
    simp at this

/-- Witness for C6 at concrete plan text and path. -/
theorem createMarkdown_roundtrip_witness :
    (validateFilePath "changes.md" = ("changes.md", none) ∧
        ("+ resource" : String) ≠ "") ∧
      ∃ c, ((createMarkdown (fun _ => none) "changes.md" "+ resource"
          "tofu").2.1) "changes.md" = some c ∧
        (∃ l r, c.data = l ++ ("```terraform\n" ++ "+ resource" ++ "\n```").data ++ r) ∧
        ['\n'] <:+ c.data ∧ ¬ ['\n', '\n'] <:+ c.data :=
  ⟨⟨by decide, by decide⟩,
    createMarkdown_roundtrip (fun _ => none) "changes.md" "+ resource" "tofu"
      (by decide) (by decide)⟩

/-! ### Template composition (cmd/pr_template.go) -/

/-- Model of Go's `strings.HasSuffix`. -/
def goHasSuffix (s suf : String) : Bool :=
  List.isSuffixOf suf.data s.data

/-- Model of `strings.TrimRight(s, "\n")`: drop every trailing newline. -/
def trimRightNewlines (s : String) : String :=
  ⟨(s.data.reverse.dropWhile (fun c => c == '\n')).reverse⟩

/-- Failures of template composition; in the pure filesystem model the
write succeeds, so only the read of the rendered document can fail. -/
inductive TplError where
  | readFailed
deriving DecidableEq, Repr

/-- Embedding of `createWithTemplate` (cmd/pr_template.go): pad the
template — unless it already ends in three newlines, trim the trailing
newlines and append two — then read the rendered Markdown back and
overwrite the file with template followed by rendered content. -/
def createWithTemplate (validatedFilename : String) (templateFile : String)
    (planMdName : String) (fs : FS) : (String × Option TplError) × FS :=
  let templateStr := if goHasSuffix templateFile "\n\n\n" then templateFile
    else trimRightNewlines templateFile ++ "\n\n"
  match fs planMdName with
  | none => ((validatedFilename, some .readFailed), fs)
  | some planMdBytes =>
    ((validatedFilename, none),
      fsWrite fs planMdName (templateStr ++ planMdBytes))

/-- C7, counterexample: a template that already ends in three newlines is
left untouched, so the prepended prefix is NOT the template with trailing
newlines trimmed plus exactly two newlines. -/
theorem createWithTemplate_counterexample :
    ((createWithTemplate "plan.md" "x\n\n\n" "plan.md"
        (fsWrite (fun _ => none) "plan.md" "RENDERED")).2) "plan.md" =
      some ("x\n\n\n" ++ "RENDERED") ∧
    "x\n\n\n" ≠ trimRightNewlines "x\n\n\n" ++ "\n\n" ∧
    ((createWithTemplate "plan.md" "x\n\n\n" "plan.md"
        (fsWrite (fun _ => none) "plan.md" "RENDERED")).2) "plan.md" ≠
      some ((trimRightNewlines "x\n\n\n" ++ "\n\n") ++ "RENDERED") := by
  refine ⟨by decide, by decide, by decide⟩

/-- C7, amended: for every template that does not already end in three
consecutive newlines, composition prepends exactly the template with all
trailing newlines trimmed plus two newlines, and the final file content is
that normalized template followed by the previously rendered content. -/
theorem createWithTemplate_normalizes (validatedFilename templateFile
    planMdName rendered : String) (fs : FS)
    (hns : goHasSuffix templateFile "\n\n\n" = false)
    (hread : fs planMdName = some rendered) :
    (createWithTemplate validatedFilename templateFile planMdName fs).1 =
        (validatedFilename, none) ∧
      ((createWithTemplate validatedFilename templateFile planMdName fs).2)
          planMdName =
        some ((trimRightNewlines templateFile ++ "\n\n") ++ rendered) := by
  constructor <;> simp [createWithTemplate, hns, hread, fsWrite]

/-- Witness for the amended C7 at a concrete template and rendered file. -/
theorem createWithTemplate_normalizes_witness :
    (goHasSuffix "Hello\n" "\n\n\n" = false ∧
        (fsWrite (fun _ => none) "plan.md" "DOC") "plan.md" = some "DOC") ∧
      (createWithTemplate "plan.md" "Hello\n" "plan.md"
          (fsWrite (fun _ => none) "plan.md" "DOC")).1 = ("plan.md", none) ∧
      ((createWithTemplate "plan.md" "Hello\n" "plan.md"
          (fsWrite (fun _ => none) "plan.md" "DOC")).2) "plan.md" =
        some ((trimRightNewlines "Hello\n" ++ "\n\n") ++ "DOC") :=
  ⟨⟨by decide, by decide⟩,
    createWithTemplate_normalizes "plan.md" "Hello\n" "plan.md" "DOC"
      (fsWrite (fun _ => none) "plan.md" "DOC") (by decide) (by decide)⟩

/-! ### The root command pipeline (cmd/root.go, RunE) -/

/-- Environment of one run of the root command: configuration state, PATH
lookups, the filesystem, and the outcomes of the external invocations. -/
structure RunEnv where
  configExists : Bool
  planFileSet : Bool
  mdFileSet : Bool
  planFileRaw : String
  mdFileRaw : String
  binarySet : Bool
  viperBinary : String
  lookPath : String → Option String
  tfFilesPresent : Bool
  stdinMode : Bool
  stdinReadOk : Bool
  stdinContent : String
  tfexecInitFails : Bool
  interrupted : Bool
  planErr : Option String
  showResult : Except String String
  fs : FS

/-- The errors the root command can return, in source order. -/
inductive RunError where
  | configNotFound
  | missingPlanFileParam
  | missingMdFileParam
  | noBinaryFound
  | multipleBinariesFound
  | invalidPlanFile (raw : String) (e : VError)
  | invalidMdFile (raw : String) (e : VError)
  | noIacFiles
  | interruptedExit
  | planCreationFailed (e : CreatePlanError)
  | markdownFailed (e : MdError)
  | stdinReadFailed
  | emptyStdinPlan
deriving DecidableEq, Repr

/-- The binaries collected by the detection loop in `RunE` (cmd/root.go):
candidates whose PATH lookup succeeds with a non-empty path. -/
def foundBinariesOnPath (lookPath : String → Option String) : List String :=
  binariesToFind.filter
    (fun b => match lookPath b with
      | some binPath => !(binPath = "")
      | none => false)

/-- The plan-executor environment assembled by the root command: the
configured binary (empty when unset, as `viper.GetString` returns) and the
package-level binary determined earlier, together with the run's external
outcomes. -/
def planEnvOf (env : RunEnv) (binary : String) : PlanEnv where
  viperBinary := if env.binarySet then env.viperBinary else ""
  globalBinary := binary
  planFileRaw := env.planFileRaw
  tfexecInitFails := env.tfexecInitFails
  interrupted := env.interrupted
  planErr := env.planErr
  showResult := env.showResult

/-- The execution stage of `RunE` (cmd/root.go), after parameter checks,
binary determination and filename validation: either the plan-execution
path (`createPlan` followed by `createMarkdown`, with a best-effort
removal of the plan artifact when interrupted) or the stdin path
(`createMarkdown` on the piped text). The result carries every filesystem
event of the run and the final filesystem. The markdown step uses the
spec-modelled `createMarkdown`. -/
def runPipelineBody (env : RunEnv)
    (planFileValidated mdFileValidated binary : String) :
    Except RunError Unit × List Event × FS :=
  if env.tfFilesPresent = false then (.error .noIacFiles, [], env.fs)
  else if env.stdinMode = false then
    match createPlan (planEnvOf env binary) with
    | (.error .interrupted, evs) =>
      (.error .interruptedExit, evs ++ [.remove planFileValidated], env.fs)
    | (.error e, evs) => (.error (.planCreationFailed e), evs, env.fs)
    | (.ok planStr, evs) =>
      match createMarkdown env.fs mdFileValidated planStr binary with
      | ((_, some e), fs2, evs2) => (.error (.markdownFailed e), evs ++ evs2, fs2)
      | ((_, none), fs2, evs2) => (.ok (), evs ++ evs2, fs2)
  else
    if env.stdinReadOk = false then (.error .stdinReadFailed, [], env.fs)
    else if env.stdinContent = "" then (.error .emptyStdinPlan, [], env.fs)
    else
      match createMarkdown env.fs mdFileValidated env.stdinContent binary with
      | ((_, some e), fs2, evs2) => (.error (.markdownFailed e), evs2, fs2)
      | ((_, none), fs2, evs2) => (.ok (), evs2, fs2)

/-- Embedding of the root command body `RunE` (cmd/root.go): config and
parameter checks, binary determination, validation of both output file
names, then the execution stage. -/
def runE (env : RunEnv) : Except RunError Unit × List Event × FS :=
  if env.configExists = false then (.error .configNotFound, [], env.fs)
  else if env.planFileSet = false then (.error .missingPlanFileParam, [], env.fs)
  else if env.mdFileSet = false then (.error .missingMdFileParam, [], env.fs)
  else if env.binarySet = false ∧ foundBinariesOnPath env.lookPath = [] then
    (.error .noBinaryFound, [], env.fs)
  else if env.binarySet = false ∧ 1 < (foundBinariesOnPath env.lookPath).length then
    (.error .multipleBinariesFound, [], env.fs)
  else
    match validateFilePath env.planFileRaw with
    | (_, some e) => (.error (.invalidPlanFile env.planFileRaw e), [], env.fs)
    | (planFileValidated, none) =>
      match validateFilePath env.mdFileRaw with
      | (_, some e) => (.error (.invalidMdFile env.mdFileRaw e), [], env.fs)
      | (mdFileValidated, none) =>
        runPipelineBody env planFileValidated mdFileValidated
          (if env.binarySet then env.viperBinary
            else (foundBinariesOnPath env.lookPath).getLastD "")

/-- Every path the plan executor writes is the output of a successful
validation. -/
theorem createPlan_writes {env : PlanEnv} {p : String}
    (hp : Event.write p ∈ (createPlan env).2) :
    ∃ raw, validateFilePath raw = (p, none) := by
  unfold createPlan at hp
  by_cases hbin :
      (if env.viperBinary = "" then env.globalBinary else env.viperBinary) = ""
  · rw [if_pos hbin] at hp
    simp at hp
  · rw [if_neg hbin] at hp
    split at hp
    · simp at hp
    · next planPath heq =>
      refine ⟨env.planFileRaw, ?_⟩
      by_cases hinit : env.tfexecInitFails = true
      · rw [if_pos hinit] at hp
        simp at hp
      · rw [if_neg hinit] at hp
        by_cases hint : env.interrupted = true
        · rw [if_pos hint] at hp
          simp at hp
          exact hp ▸ heq
        · rw [if_neg hint] at hp
          split at hp
          · simp at hp
            exact hp ▸ heq
          · split at hp <;>
              · simp at hp
                exact hp ▸ heq

/-- Every path the renderer writes is the output of a successful
validation. -/
theorem createMarkdown_writes {fs : FS} {md ps b p : String}
    (hp : Event.write p ∈ (createMarkdown fs md ps b).2.2) :
    ∃ raw, validateFilePath raw = (p, none) := by
  unfold createMarkdown at hp
  split at hp
  · simp at hp
  · next validated heq =>
    split_ifs at hp
    · simp at hp
    · simp at hp
      exact ⟨md, hp ▸ heq⟩

/-- The output of a successful validation revalidates to itself and is a
bare name: no separator, and neither `.` nor `..`. -/
theorem validated_value_props {raw p : String}
    (h : validateFilePath raw = (p, none)) :
    validateFilePath p = (p, none) ∧ '/' ∉ p.data ∧ p ≠ "." ∧ p ≠ ".." := by
  have facts := validateFilePath_ok_facts h
  have hchars := validFilenameChars_facts facts.2.2.2.2.1
  exact ⟨validateFilePath_idem h, hchars.2.1, facts.2.2.1, facts.2.2.2.1⟩

/-- Every path the execution stage writes is the output of a successful
validation (the plan executor and the renderer each validate the path
they write). -/
theorem runPipelineBody_writes {env : RunEnv} {pfv mdv binary p : String}
    (hp : Event.write p ∈ (runPipelineBody env pfv mdv binary).2.1) :
    ∃ raw, validateFilePath raw = (p, none) := by
  unfold runPipelineBody at hp
  by_cases htf : env.tfFilesPresent = false
  · rw [if_pos htf] at hp
    simp at hp
  · rw [if_neg htf] at hp
    by_cases hstdin : env.stdinMode = false
    · rw [if_pos hstdin] at hp
      split at hp
      · next evs heq =>
        have h2 : (createPlan (planEnvOf env binary)).2 = evs := by rw [heq]
        simp only at hp
        rw [List.mem_append] at hp
        rcases hp with hp | hp
        · rw [← h2] at hp
          exact createPlan_writes hp
        · simp at hp
      · next e evs hne heq =>
        have h2 : (createPlan (planEnvOf env binary)).2 = evs := by rw [heq]
        rw [← h2] at hp
        exact createPlan_writes hp
      · next planStr evs heq =>
        have h2 : (createPlan (planEnvOf env binary)).2 = evs := by rw [heq]
        split at hp
        · next f e fs2 evs2 heq2 =>
          have h3 : (createMarkdown env.fs mdv planStr binary).2.2 = evs2 := by
            rw [heq2]
          simp only at hp
          rw [List.mem_append] at hp
          rcases hp with hp | hp
          · rw [← h2] at hp
            exact createPlan_writes hp
          · rw [← h3] at hp
            exact createMarkdown_writes hp
        · next f fs2 evs2 heq2 =>
          have h3 : (createMarkdown env.fs mdv planStr binary).2.2 = evs2 := by
            rw [heq2]
          simp only at hp
          rw [List.mem_append] at hp
          rcases hp with hp | hp
          · rw [← h2] at hp
            exact createPlan_writes hp
          · rw [← h3] at hp
            exact createMarkdown_writes hp
    · rw [if_neg hstdin] at hp
      by_cases hok : env.stdinReadOk = false
      · rw [if_pos hok] at hp
        simp at hp
      · rw [if_neg hok] at hp
        by_cases hemp : env.stdinContent = ""
        · rw [if_pos hemp] at hp
          simp at hp
        · rw [if_neg hemp] at hp
          split at hp
          · next f e fs2 evs2 heq2 =>
            have h3 : (createMarkdown env.fs mdv env.stdinContent binary).2.2 = evs2 := by
              rw [heq2]
            rw [show ((Except.error (RunError.markdownFailed e) :
                Except RunError Unit), evs2, fs2).2.1 = evs2 from rfl] at hp
            rw [← h3] at hp
            exact createMarkdown_writes hp
          · next f fs2 evs2 heq2 =>
            have h3 : (createMarkdown env.fs mdv env.stdinContent binary).2.2 = evs2 := by
              rw [heq2]
            rw [show ((Except.ok () : Except RunError Unit), evs2, fs2).2.1 = evs2 from rfl] at hp
            rw [← h3] at hp
            exact createMarkdown_writes hp

/-- C2: every file path any pipeline operation writes — the plan artifact
and the markdown file, on both the plan-execution path and the stdin
path — has passed the filename validator, so it is a bare filename inside
the current working directory: it revalidates to itself, contains no
directory separator, and is neither `.` nor `..`. -/
theorem runE_writes_validated (env : RunEnv) (p : String)
    (hp : Event.write p ∈ (runE env).2.1) :
    validateFilePath p = (p, none) ∧ '/' ∉ p.data ∧ p ≠ "." ∧ p ≠ ".." := by
  unfold runE at hp
  split_ifs at hp
  · simp at hp
  · simp at hp
  · simp at hp
  · simp at hp
  · simp at hp
  all_goals
    split at hp
    · simp at hp
    · split at hp
      · simp at hp
      · obtain ⟨raw, hraw⟩ := runPipelineBody_writes hp
        exact validated_value_props hraw

/-- A concrete successful plan-execution run used as the C2 witness. -/
def pipelineEnv : RunEnv where
  configExists := true
  planFileSet := true
  mdFileSet := true
  planFileRaw := "plan.out"
  mdFileRaw := "./plan.md"
  binarySet := true
  viperBinary := "tofu"
  lookPath := fun _ => none
  tfFilesPresent := true
  stdinMode := false
  stdinReadOk := true
  stdinContent := ""
  tfexecInitFails := false
  interrupted := false
  planErr := none
  showResult := .ok "PLAN"
  fs := fun _ => none

/-- Witness for C2: in a concrete successful run both the plan artifact
and the markdown file are written, and the written plan path satisfies the
invariant. -/
theorem runE_writes_validated_witness :
    Event.write "plan.out" ∈ (runE pipelineEnv).2.1 ∧
      (validateFilePath "plan.out" = ("plan.out", none) ∧
        '/' ∉ "plan.out".data ∧ "plan.out" ≠ "." ∧ "plan.out" ≠ "..") :=
  ⟨by decide, runE_writes_validated pipelineEnv "plan.out" (by decide)⟩

end GhTp
